import Mathlib

/-!
Verification of the TIMDEX index manager core (`tim/opensearch.py`,
`tim/helpers.py`, `tim/config.py`, `tim/errors.py`).

Shallow embedding conventions:
* The OpenSearch cluster alias state is modelled as the row list returned by
  the `cat.aliases` endpoint: one `(alias, index)` pair per row.
* Functions that talk to the cluster take this state explicitly; functions
  that mutate it return the new state.
* Python exceptions are modelled with `Except TimError`; the `IndexError`
  raised by an out-of-range `list[0]` access is `TimError.indexError`.
* `logger.error` calls that the spec talks about are modelled as explicit
  log accumulators (`BulkLog` entries, anomaly lists); `logger.info` and
  `logger.debug` calls are pure observations and are not modelled.
* `datetime.now()` is modelled as an explicit `now` argument.
-/

namespace Tim

/-- `PRIMARY_ALIAS` from `tim/config.py`. -/
def PRIMARY_ALIAS : String := "all-current"

/-- `VALID_BULK_OPERATIONS` from `tim/config.py`. -/
def VALID_BULK_OPERATIONS : List String := ["create", "delete", "index", "update"]

/-- Characters of a string up to (excluding) the first dash: the character
level computation behind Python `index_name.split("-")[0]`. -/
def take_until_dash : List Char → List Char
  | [] => []
  | c :: rest => if c = '-' then [] else c :: take_until_dash rest

/-- `get_source_from_index` from `tim/helpers.py`:
`index_name.split("-")[0]`, the part of the name before the first dash
(the whole name if it has no dash). -/
def get_source_from_index (index_name : String) : String :=
  ⟨take_until_dash index_name.data⟩

/-- The rows returned by the `cat.aliases` endpoint: one `(alias, index)`
pair per alias membership. This is the alias state of the cluster. -/
abbrev AliasRows := List (String × String)

/-- One step of the `aliases.setdefault(item["alias"], []).append(item["index"])`
loop in `get_aliases`: append `i` to the entry for key `a`, creating the
entry at the end if the key is new (Python dicts keep insertion order). -/
def add_alias_row (acc : List (String × List String)) (a i : String) :
    List (String × List String) :=
  match acc with
  | [] => [(a, [i])]
  | (k, v) :: rest =>
      if k = a then (k, v ++ [i]) :: rest else (k, v) :: add_alias_row rest a i

/-- The alias → member-indexes dict built by the loop in `get_aliases`. -/
def group_aliases (rows : AliasRows) : List (String × List String) :=
  rows.foldl (fun acc r => add_alias_row acc r.1 r.2) []

/-- `get_aliases` from `tim/opensearch.py`: groups the `cat.aliases` rows by
alias and returns `None` (here `none`) if the resulting dict is empty
(`return aliases or None`). -/
def get_aliases (rows : AliasRows) : Option (List (String × List String)) :=
  if (group_aliases rows).isEmpty then none else some (group_aliases rows)

/-- `get_all_aliased_indexes_for_source` from `tim/opensearch.py`: per alias,
the member indexes whose name prefix matches `source`; aliases with no
matching index are dropped (`{k: v for k, v in result.items() if v}`), and
an empty result becomes `None`. -/
def get_all_aliased_indexes_for_source (rows : AliasRows) (source : String) :
    Option (List (String × List String)) :=
  match get_aliases rows with
  | none => none
  | some aliases =>
      let result := aliases.map (fun p =>
        (p.1, p.2.filter (fun i => get_source_from_index i = source)))
      let filtered := result.filter (fun p => !p.2.isEmpty)
      if filtered.isEmpty then none else some filtered

/-- The `logger.error("Alias ... had multiple existing indexes ...")` calls
made by `get_all_aliased_indexes_for_source`: one entry per alias whose
filtered source-index list has more than one element, carrying the alias
name and the offending index list exactly as logged. -/
def source_index_anomalies (rows : AliasRows) (source : String) :
    List (String × List String) :=
  match get_aliases rows with
  | none => []
  | some aliases =>
      (aliases.map (fun p =>
        (p.1, p.2.filter (fun i => get_source_from_index i = source)))).filter
        (fun p => 1 < p.2.length)

/-- The typed errors of `tim/errors.py` plus the raw Python errors the code
can raise: `ValueError` from `generate_bulk_actions` and the `IndexError`
raised by an out-of-range `list[0]` access. -/
inductive TimError
  | indexError
  | indexExists (index : String)
  | indexNotFound (index : String)
  | bulkIndexing (record index error : String)
  | valueError (action : String)
deriving DecidableEq

/-- `get_primary_index_for_source` from `tim/opensearch.py`:
`aliases.get(PRIMARY_ALIAS, [])[0] if aliases else None`. The `[0]` access
on the empty-list default raises `IndexError` when the grouping is non-empty
but the primary alias is not one of its keys. -/
def get_primary_index_for_source (rows : AliasRows) (source : String) :
    Except TimError (Option String) :=
  match get_all_aliased_indexes_for_source rows source with
  | none => .ok none
  | some aliases =>
      match ((aliases.find? (fun p => p.1 = PRIMARY_ALIAS)).map Prod.snd).getD [] with
      | [] => .error .indexError
      | x :: _ => .ok (some x)

/-- The cluster state visible to the index-lifecycle functions: the set of
existing index names plus the alias membership rows. -/
structure Cluster where
  indexes : List String
  rows : AliasRows
deriving DecidableEq

/-- `create_index` from `tim/opensearch.py`: the cluster rejects creation of
an existing index name (`resource_already_exists_exception`, surfaced as
`IndexExistsError`); otherwise the index is created and its name returned. -/
def create_index (c : Cluster) (name : String) : Except TimError (String × Cluster) :=
  if name ∈ c.indexes then .error (.indexExists name)
  else .ok (name, { c with indexes := c.indexes ++ [name] })

/-- `generate_index_name` from `tim/helpers.py`, with `datetime.now()`
modelled as the explicit preformatted `now` argument:
`f"{source}-{now}"`. -/
def generate_index_name (source : String) (now : String) : String :=
  source ++ "-" ++ now

/-- `get_or_create_index_from_source` from `tim/opensearch.py`: when `new`
is false, return the primary index for the source when there is one
(flagged not-new); otherwise create `generate_index_name source now` and
return it flagged new. -/
def get_or_create_index_from_source (c : Cluster) (source : String) (new : Bool)
    (now : String) : Except TimError ((String × Bool) × Cluster) :=
  let createNew : Except TimError ((String × Bool) × Cluster) :=
    match create_index c (generate_index_name source now) with
    | .error e => .error e
    | .ok (n, c2) => .ok ((n, true), c2)
  match new with
  | false =>
      match get_primary_index_for_source c.rows source with
      | .error e => .error e
      | .ok (some index) => .ok ((index, false), c)
      | .ok none => createNew
  | true => createNew

/-- One action of an `update_aliases` request body: `{"add": {...}}` or
`{"remove": {...}}` with an index and an alias name. -/
inductive AliasAction
  | add (index aliasName : String)
  | remove (index aliasName : String)
deriving DecidableEq

/-- The `all_aliases` set computed by `promote_index` in
`tim/opensearch.py`: primary alias, plus the aliases currently holding an
index for the promoted index's source, plus the requested extra aliases
(the Python `set` is modelled by `dedup`; only membership matters). -/
def promote_target_aliases (rows : AliasRows) (index : String)
    (extra_aliases : Option (List String)) : List String :=
  ([PRIMARY_ALIAS]
    ++ ((get_all_aliased_indexes_for_source rows
          (get_source_from_index index)).getD []).map Prod.fst
    ++ extra_aliases.getD []).dedup

/-- The add actions of the `promote_index` request body: add the promoted
index to every target alias. -/
def promote_adds (rows : AliasRows) (index : String)
    (extra_aliases : Option (List String)) : List AliasAction :=
  (promote_target_aliases rows index extra_aliases).map
    (fun a => AliasAction.add index a)

/-- The remove actions of the `promote_index` request body: for every alias
currently holding same-source indexes, remove each of them except the index
being promoted. -/
def promote_removes (rows : AliasRows) (index : String) : List AliasAction :=
  ((get_all_aliased_indexes_for_source rows
      (get_source_from_index index)).getD []).flatMap
    (fun p => (p.2.filter (fun i => i ≠ index)).map
      (fun i => AliasAction.remove i p.1))

/-- The single combined `update_aliases` request body built by
`promote_index` in `tim/opensearch.py`: the add actions followed by the
remove actions, submitted together. -/
def promote_request (rows : AliasRows) (index : String)
    (extra_aliases : Option (List String)) : List AliasAction :=
  promote_adds rows index extra_aliases ++ promote_removes rows index

/-- The cluster side of one alias action, on the membership rows: an add
inserts the `(alias, index)` membership if not already present; a remove
deletes it. -/
def apply_alias_action (rows : AliasRows) : AliasAction → AliasRows
  | .add i a => if (a, i) ∈ rows then rows else rows ++ [(a, i)]
  | .remove i a => rows.filter (fun p => p ≠ (a, i))

/-- The cluster applies the actions of one `update_aliases` request in
order (atomically, but atomicity is not observable in this sequential
model). -/
def apply_alias_actions (rows : AliasRows) (req : List AliasAction) : AliasRows :=
  req.foldl apply_alias_action rows

/-- End-to-end effect of a successful `promote_index` call on the alias
membership rows: build the combined request from the current state and let
the cluster apply it. -/
def promote_apply (rows : AliasRows) (index : String)
    (extra_aliases : Option (List String)) : AliasRows :=
  apply_alias_actions rows (promote_request rows index extra_aliases)

/-- An input record: a mapping that carries the required
`timdex_record_id` field plus arbitrary other fields. -/
structure Record where
  timdex_record_id : String
  fields : List (String × String)
deriving DecidableEq

/-- One bulk action descriptor yielded by `generate_bulk_actions`: the
`_op_type`, `_index` and `_id` keys, and the optional `_source` key holding
the whole record (present iff the action is not `delete`). -/
structure BulkAction where
  opType : String
  index : String
  id : String
  source : Option Record
deriving DecidableEq

/-- `generate_bulk_actions` from `tim/helpers.py`. The generator raises
`ValueError` on an invalid action before yielding anything (modelled as an
`Except.error` producing no actions); otherwise it yields one descriptor per
record, adding the `_source` key for every action other than `delete`. -/
def generate_bulk_actions (index : String) (records : List Record) (action : String) :
    Except TimError (List BulkAction) :=
  if action ∈ VALID_BULK_OPERATIONS then
    .ok (records.map (fun record =>
      { opType := action, index := index, id := record.timdex_record_id,
        source := if action ≠ "delete" then some record else none }))
  else .error (.valueError action)

/-- One per-item response from the streaming bulk helper during
`bulk_index`: the success flag `response[0]`, and from
`response[1]["index"]` the `_id`, the error `type` and the serialised error
detail (meaningful when the flag is false), and the optional `result`. -/
structure IndexResp where
  ok : Bool
  id : String
  errorType : String
  errorJson : String
  result : Option String
deriving DecidableEq

/-- One per-item response from the streaming bulk helper during
`bulk_delete`: from `response[1]["delete"]`, the `_id` and the optional
`result` (`bulk_delete` never reads `response[0]`). -/
structure DeleteResp where
  id : String
  result : Option String
deriving DecidableEq

/-- The counter dict of `bulk_index`. -/
structure IndexCounters where
  created : Nat
  updated : Nat
  errors : Nat
  total : Nat
deriving DecidableEq

/-- The counter dict of `bulk_delete`. -/
structure DeleteCounters where
  deleted : Nat
  errors : Nat
  total : Nat
deriving DecidableEq

/-- The `logger.error` calls of `bulk_index` and `bulk_delete`, as data. -/
inductive BulkLog
  | indexingErrorLog (record detail : String)
  | unexpectedIndexResp (r : IndexResp)
  | deleteNotFound (record index : String)
  | unexpectedDeleteResp (r : DeleteResp)
deriving DecidableEq

/-- The body of the `for response in responses` loop of `bulk_index` for a
single response: classify it, bump exactly one outcome counter and `total`,
or raise `BulkIndexingError` (before `total` is bumped) for a non
`mapper_parsing_exception` item failure. -/
def bulk_index_classify (index : String) (r : IndexResp) (c : IndexCounters)
    (logs : List BulkLog) : Except TimError (IndexCounters × List BulkLog) :=
  if r.ok = false then
    if r.errorType = "mapper_parsing_exception" then
      .ok ({ c with errors := c.errors + 1, total := c.total + 1 },
        logs ++ [BulkLog.indexingErrorLog r.id r.errorJson])
    else .error (.bulkIndexing r.id index r.errorJson)
  else if r.result = some "created" then
    .ok ({ c with created := c.created + 1, total := c.total + 1 }, logs)
  else if r.result = some "updated" then
    .ok ({ c with updated := c.updated + 1, total := c.total + 1 }, logs)
  else
    .ok ({ c with errors := c.errors + 1, total := c.total + 1 },
      logs ++ [BulkLog.unexpectedIndexResp r])

/-- The `for response in responses` loop of `bulk_index`. -/
def bulk_index_go (index : String) :
    List IndexResp → IndexCounters → List BulkLog →
    Except TimError (IndexCounters × List BulkLog)
  | [], c, logs => .ok (c, logs)
  | r :: rest, c, logs =>
      match bulk_index_classify index r c logs with
      | .error e => .error e
      | .ok (c2, logs2) => bulk_index_go index rest c2 logs2

/-- `bulk_index` from `tim/opensearch.py`, as a function of the per-item
responses produced by the streaming bulk helper: starts from all-zero
counters and folds the classification loop (the trailing index refresh has
no effect on the returned counters and is not modelled). -/
def bulk_index (index : String) (responses : List IndexResp) :
    Except TimError (IndexCounters × List BulkLog) :=
  bulk_index_go index responses ⟨0, 0, 0, 0⟩ []

/-- The body of the `for response in responses` loop of `bulk_delete` for a
single response: `not_found` and unexpected results count as errors,
`deleted` counts as deleted, and `total` is always bumped. -/
def bulk_delete_classify (index : String) (r : DeleteResp) (c : DeleteCounters)
    (logs : List BulkLog) : DeleteCounters × List BulkLog :=
  if r.result = some "not_found" then
    ({ c with errors := c.errors + 1, total := c.total + 1 },
      logs ++ [BulkLog.deleteNotFound r.id index])
  else if r.result = some "deleted" then
    ({ c with deleted := c.deleted + 1, total := c.total + 1 }, logs)
  else
    ({ c with errors := c.errors + 1, total := c.total + 1 },
      logs ++ [BulkLog.unexpectedDeleteResp r])

/-- The `for response in responses` loop of `bulk_delete`. -/
def bulk_delete_go (index : String) :
    List DeleteResp → DeleteCounters → List BulkLog →
    DeleteCounters × List BulkLog
  | [], c, logs => (c, logs)
  | r :: rest, c, logs =>
      let step := bulk_delete_classify index r c logs
      bulk_delete_go index rest step.1 step.2

/-- `bulk_delete` from `tim/opensearch.py`, as a function of the per-item
responses produced by the streaming bulk helper. -/
def bulk_delete (index : String) (responses : List DeleteResp) :
    DeleteCounters × List BulkLog :=
  bulk_delete_go index responses ⟨0, 0, 0⟩ []

/-! ### Helper lemmas about the bulk loops -/

theorem index_classify_step (index : String) (r : IndexResp) (c : IndexCounters)
    (logs : List BulkLog) (c2 : IndexCounters) (logs2 : List BulkLog)
    (h : bulk_index_classify index r c logs = .ok (c2, logs2)) :
    c2.total = c.total + 1 ∧
      ((c2.created = c.created + 1 ∧ c2.updated = c.updated ∧ c2.errors = c.errors) ∨
        (c2.updated = c.updated + 1 ∧ c2.created = c.created ∧ c2.errors = c.errors) ∨
        (c2.errors = c.errors + 1 ∧ c2.created = c.created ∧ c2.updated = c.updated)) := by
  unfold bulk_index_classify at h
  split_ifs at h <;>
    simp only [Except.ok.injEq, Prod.mk.injEq, reduceCtorEq] at h <;>
    obtain ⟨hc, -⟩ := h <;> subst hc <;>
    exact ⟨rfl, by first
      | exact Or.inl ⟨rfl, rfl, rfl⟩
      | exact Or.inr (Or.inl ⟨rfl, rfl, rfl⟩)
      | exact Or.inr (Or.inr ⟨rfl, rfl, rfl⟩)⟩

theorem bulk_index_go_sum (index : String) (resps : List IndexResp) :
    ∀ (c : IndexCounters) (logs : List BulkLog) (c2 : IndexCounters)
      (logs2 : List BulkLog),
      bulk_index_go index resps c logs = .ok (c2, logs2) →
      c.total = c.created + c.updated + c.errors →
      c2.total = c2.created + c2.updated + c2.errors := by
  induction resps with
  | nil =>
      intro c logs c2 logs2 h hinv
      unfold bulk_index_go at h
      simp only [Except.ok.injEq, Prod.mk.injEq] at h
      obtain ⟨hc, -⟩ := h
      subst hc
      exact hinv
  | cons r rest ih =>
      intro c logs c2 logs2 h hinv
      unfold bulk_index_go at h
      cases hcl : bulk_index_classify index r c logs with
      | error e => rw [hcl] at h; exact absurd h (by simp)
      | ok out =>
          rw [hcl] at h
          obtain ⟨c1, logs1⟩ := out
          have hstep := index_classify_step index r c logs c1 logs1 hcl
          exact ih c1 logs1 c2 logs2 h (by omega)

theorem delete_classify_step (index : String) (r : DeleteResp) (c : DeleteCounters)
    (logs : List BulkLog) :
    (bulk_delete_classify index r c logs).1.total = c.total + 1 ∧
      (((bulk_delete_classify index r c logs).1.deleted = c.deleted + 1 ∧
          (bulk_delete_classify index r c logs).1.errors = c.errors) ∨
        ((bulk_delete_classify index r c logs).1.errors = c.errors + 1 ∧
          (bulk_delete_classify index r c logs).1.deleted = c.deleted)) := by
  unfold bulk_delete_classify
  split_ifs <;>
    exact ⟨rfl, by first
      | exact Or.inl ⟨rfl, rfl⟩
      | exact Or.inr ⟨rfl, rfl⟩⟩

theorem bulk_delete_go_sum (index : String) (resps : List DeleteResp) :
    ∀ (c : DeleteCounters) (logs : List BulkLog),
      c.total = c.deleted + c.errors →
      (bulk_delete_go index resps c logs).1.total =
        (bulk_delete_go index resps c logs).1.deleted +
          (bulk_delete_go index resps c logs).1.errors := by
  induction resps with
  | nil => intro c logs hinv; exact hinv
  | cons r rest ih =>
      intro c logs hinv
      have hstep := delete_classify_step index r c logs
      exact ih _ _ (by omega)

theorem index_classify_ok_of_mapper (index : String) (r : IndexResp)
    (c : IndexCounters) (logs : List BulkLog)
    (h : r.ok = false → r.errorType = "mapper_parsing_exception") :
    ∃ out, bulk_index_classify index r c logs = .ok out := by
  unfold bulk_index_classify
  split_ifs with h1 h2 h3 h4
  · exact ⟨_, rfl⟩
  · exact absurd (h h1) h2
  · exact ⟨_, rfl⟩
  · exact ⟨_, rfl⟩
  · exact ⟨_, rfl⟩

theorem bulk_index_go_ok_of_mapper (index : String) (resps : List IndexResp) :
    ∀ (c : IndexCounters) (logs : List BulkLog),
      (∀ r ∈ resps, r.ok = false → r.errorType = "mapper_parsing_exception") →
      ∃ out, bulk_index_go index resps c logs = .ok out := by
  induction resps with
  | nil => intro c logs _; exact ⟨_, rfl⟩
  | cons r rest ih =>
      intro c logs hall
      obtain ⟨⟨c1, logs1⟩, hcl⟩ :=
        index_classify_ok_of_mapper index r c logs (hall r (List.mem_cons_self r rest))
      obtain ⟨out, hgo⟩ :=
        ih c1 logs1 (fun q hq => hall q (List.mem_cons_of_mem r hq))
      refine ⟨out, ?_⟩
      unfold bulk_index_go
      rw [hcl]
      exact hgo

/-! ### Claim theorems: bulk execution engine -/

/-- C1: for every bulk run that completes without raising (including the
zero-length run, which returns all-zero counters), the returned counters
satisfy `total = created + updated + errors` for an index run and
`total = deleted + errors` for a delete run; each processed item bumps
exactly one outcome bucket and bumps `total` exactly once. -/
theorem bulk_counters_sum_invariant :
    (∀ (index : String) (resps : List IndexResp) (c : IndexCounters)
        (logs : List BulkLog),
        bulk_index index resps = .ok (c, logs) →
        c.total = c.created + c.updated + c.errors)
  ∧ (∀ (index : String) (resps : List DeleteResp),
        (bulk_delete index resps).1.total =
          (bulk_delete index resps).1.deleted + (bulk_delete index resps).1.errors)
  ∧ (∀ index : String,
        bulk_index index [] = .ok (⟨0, 0, 0, 0⟩, [])
          ∧ bulk_delete index [] = (⟨0, 0, 0⟩, []))
  ∧ (∀ (index : String) (r : IndexResp) (c : IndexCounters) (logs : List BulkLog)
        (c2 : IndexCounters) (logs2 : List BulkLog),
        bulk_index_classify index r c logs = .ok (c2, logs2) →
        c2.total = c.total + 1 ∧
          ((c2.created = c.created + 1 ∧ c2.updated = c.updated ∧ c2.errors = c.errors) ∨
            (c2.updated = c.updated + 1 ∧ c2.created = c.created ∧ c2.errors = c.errors) ∨
            (c2.errors = c.errors + 1 ∧ c2.created = c.created ∧ c2.updated = c.updated)))
  ∧ (∀ (index : String) (r : DeleteResp) (c : DeleteCounters) (logs : List BulkLog),
        (bulk_delete_classify index r c logs).1.total = c.total + 1 ∧
          (((bulk_delete_classify index r c logs).1.deleted = c.deleted + 1 ∧
              (bulk_delete_classify index r c logs).1.errors = c.errors) ∨
            ((bulk_delete_classify index r c logs).1.errors = c.errors + 1 ∧
              (bulk_delete_classify index r c logs).1.deleted = c.deleted))) := by
  refine ⟨?_, ?_, ?_, ?_, ?_⟩
  · intro index resps c logs h
    exact bulk_index_go_sum index resps ⟨0, 0, 0, 0⟩ [] c logs h rfl
  · intro index resps
    exact bulk_delete_go_sum index resps ⟨0, 0, 0⟩ [] rfl
  · intro index
    exact ⟨rfl, rfl⟩
  · intro index r c logs c2 logs2 h
    exact index_classify_step index r c logs c2 logs2 h
  · intro index r c logs
    exact delete_classify_step index r c logs

/-- Witness for C1: a one-item index run whose record is created. -/
theorem bulk_counters_sum_invariant_witness :
    (⟨1, 0, 0, 1⟩ : IndexCounters).total =
      (⟨1, 0, 0, 1⟩ : IndexCounters).created +
        (⟨1, 0, 0, 1⟩ : IndexCounters).updated +
        (⟨1, 0, 0, 1⟩ : IndexCounters).errors :=
  bulk_counters_sum_invariant.1 "idx" [⟨true, "rec1", "", "", some "created"⟩]
    ⟨1, 0, 0, 1⟩ [] rfl

/-- C4: during a `bulk_index` run, a `mapper_parsing_exception` item failure
is logged with the record id and raw error detail, bumps `errors`, and the
loop continues with the remaining responses; any other item-failure kind
aborts the run with `BulkIndexingError` carrying the record id, index name
and error detail; and a run whose item failures are all
`mapper_parsing_exception` never raises that error. -/
theorem bulk_index_error_classification :
    (∀ (index : String) (r : IndexResp) (c : IndexCounters) (logs : List BulkLog),
        r.ok = false → r.errorType = "mapper_parsing_exception" →
        bulk_index_classify index r c logs =
          .ok ({ c with errors := c.errors + 1, total := c.total + 1 },
            logs ++ [BulkLog.indexingErrorLog r.id r.errorJson]))
  ∧ (∀ (index : String) (r : IndexResp) (rest : List IndexResp) (c : IndexCounters)
        (logs : List BulkLog),
        r.ok = false → r.errorType = "mapper_parsing_exception" →
        bulk_index_go index (r :: rest) c logs =
          bulk_index_go index rest
            { c with errors := c.errors + 1, total := c.total + 1 }
            (logs ++ [BulkLog.indexingErrorLog r.id r.errorJson]))
  ∧ (∀ (index : String) (r : IndexResp) (c : IndexCounters) (logs : List BulkLog),
        r.ok = false → r.errorType ≠ "mapper_parsing_exception" →
        bulk_index_classify index r c logs =
          .error (.bulkIndexing r.id index r.errorJson))
  ∧ (∀ (index : String) (resps : List IndexResp),
        (∀ r ∈ resps, r.ok = false → r.errorType = "mapper_parsing_exception") →
        ∃ out, bulk_index index resps = .ok out) := by
  have hmapper : ∀ (index : String) (r : IndexResp) (c : IndexCounters)
      (logs : List BulkLog),
      r.ok = false → r.errorType = "mapper_parsing_exception" →
      bulk_index_classify index r c logs =
        .ok ({ c with errors := c.errors + 1, total := c.total + 1 },
          logs ++ [BulkLog.indexingErrorLog r.id r.errorJson]) := by
    intro index r c logs hok htype
    unfold bulk_index_classify
    rw [hok]
    simp [htype]
  refine ⟨hmapper, ?_, ?_, ?_⟩
  · intro index r rest c logs hok htype
    have h1 := hmapper index r c logs hok htype
    simp only [bulk_index_go, h1]
  · intro index r c logs hok htype
    unfold bulk_index_classify
    rw [hok]
    simp [htype]
  · intro index resps hall
    exact bulk_index_go_ok_of_mapper index resps ⟨0, 0, 0, 0⟩ [] hall

/-- Witness for C4: a failed response of kind `mapper_parsing_exception`. -/
theorem bulk_index_error_classification_witness :
    bulk_index_classify "idx"
        ⟨false, "rec9", "mapper_parsing_exception", "rawdetail", none⟩
        ⟨0, 0, 0, 0⟩ [] =
      .ok (⟨0, 0, 1, 1⟩, [BulkLog.indexingErrorLog "rec9" "rawdetail"]) :=
  bulk_index_error_classification.1 "idx"
    ⟨false, "rec9", "mapper_parsing_exception", "rawdetail", none⟩
    ⟨0, 0, 0, 0⟩ [] rfl rfl

/-! ### Claim theorems: record action encoder -/

/-- C5: for every operation kind outside the valid set, the encoder fails
with the invalid-operation `ValueError` and yields no action. -/
theorem generate_bulk_actions_invalid_op (index : String) (records : List Record)
    (action : String) (h : action ∉ VALID_BULK_OPERATIONS) :
    generate_bulk_actions index records action = .error (.valueError action) := by
  unfold generate_bulk_actions
  simp [h]

/-- Witness for C5: the operation kind `bogus`. -/
theorem generate_bulk_actions_invalid_op_witness :
    generate_bulk_actions "idx" [⟨"id0", []⟩] "bogus" =
      .error (.valueError "bogus") :=
  generate_bulk_actions_invalid_op "idx" [⟨"id0", []⟩] "bogus" (by decide)

/-- C6 counterexample: the descriptor produced for an `update` action is the
`index` descriptor with only the operation kind changed — the record sits in
the same `_source` field, so update has no shape distinct from
create/index. -/
theorem update_action_same_shape_counterexample :
    generate_bulk_actions "idx" [⟨"id0", []⟩] "update" =
      .ok [{ opType := "update", index := "idx", id := "id0",
             source := some ⟨"id0", []⟩ }]
  ∧ generate_bulk_actions "idx" [⟨"id0", []⟩] "index" =
      .ok [{ opType := "index", index := "idx", id := "id0",
             source := some ⟨"id0", []⟩ }] :=
  ⟨rfl, rfl⟩

/-- C6 (amended): a delete descriptor carries only the operation kind, index
and id with no document body; create, index and update descriptors all carry
the full record in the same `_source` field (update is not shape-distinct). -/
theorem bulk_action_shapes (index : String) (records : List Record)
    (action : String) (acts : List BulkAction)
    (h : generate_bulk_actions index records action = .ok acts) :
    acts.length = records.length ∧
    ∀ (k : Nat) (hk : k < acts.length) (hk2 : k < records.length),
      (acts.get ⟨k, hk⟩).opType = action ∧
      (acts.get ⟨k, hk⟩).index = index ∧
      (acts.get ⟨k, hk⟩).id = (records.get ⟨k, hk2⟩).timdex_record_id ∧
      (action = "delete" → (acts.get ⟨k, hk⟩).source = none) ∧
      (action ≠ "delete" → (acts.get ⟨k, hk⟩).source = some (records.get ⟨k, hk2⟩)) := by
  unfold generate_bulk_actions at h
  split_ifs at h with hv hd
  · simp only [Except.ok.injEq] at h
    subst h
    refine ⟨List.length_map _ _, ?_⟩
    intro k hk hk2
    rw [List.get_map]
    simp [hd]
  · simp only [Except.ok.injEq] at h
    subst h
    refine ⟨List.length_map _ _, ?_⟩
    intro k hk hk2
    rw [List.get_map]
    rw [not_not] at hd
    simp [hd]

/-- Witness for C6 (amended): a singleton delete run. -/
theorem bulk_action_shapes_witness :
    ([{ opType := "delete", index := "idx", id := "id0", source := none }] :
      List BulkAction).length = ([⟨"id0", []⟩] : List Record).length :=
  (bulk_action_shapes "idx" [⟨"id0", []⟩] "delete"
    [{ opType := "delete", index := "idx", id := "id0", source := none }] rfl).1

/-! ### Helper lemmas about the alias grouping -/

theorem add_alias_row_ne_nil (acc : List (String × List String)) (a i : String) :
    add_alias_row acc a i ≠ [] := by
  cases acc with
  | nil => simp [add_alias_row]
  | cons q rest =>
      obtain ⟨k, v⟩ := q
      unfold add_alias_row
      split_ifs <;> simp

theorem foldl_add_alias_row_ne_nil (rows : AliasRows) :
    ∀ acc : List (String × List String), acc ≠ [] →
      rows.foldl (fun acc r => add_alias_row acc r.1 r.2) acc ≠ [] := by
  induction rows with
  | nil => intro acc h; exact h
  | cons r rest ih =>
      intro acc _
      exact ih (add_alias_row acc r.1 r.2) (add_alias_row_ne_nil acc r.1 r.2)

theorem group_aliases_eq_nil_iff (rows : AliasRows) :
    group_aliases rows = [] ↔ rows = [] := by
  constructor
  · intro h
    cases rows with
    | nil => rfl
    | cons r rest =>
        exact absurd h
          (foldl_add_alias_row_ne_nil rest (add_alias_row [] r.1 r.2)
            (add_alias_row_ne_nil [] r.1 r.2))
  · intro h
    subst h
    rfl

theorem add_alias_row_snd_ne_nil (acc : List (String × List String)) (a i : String)
    (h : ∀ p ∈ acc, p.2 ≠ []) :
    ∀ p ∈ add_alias_row acc a i, p.2 ≠ [] := by
  induction acc with
  | nil =>
      intro p hp
      simp only [add_alias_row, List.mem_singleton] at hp
      subst hp
      simp
  | cons q rest ih =>
      obtain ⟨k, v⟩ := q
      intro p hp
      unfold add_alias_row at hp
      split_ifs at hp with hk
      · rcases List.mem_cons.mp hp with h1 | h1
        · subst h1; simp
        · exact h p (List.mem_cons_of_mem _ h1)
      · rcases List.mem_cons.mp hp with h1 | h1
        · subst h1; exact h _ (List.mem_cons_self _ _)
        · exact ih (fun q hq => h q (List.mem_cons_of_mem _ hq)) p h1

theorem group_aliases_snd_ne_nil (rows : AliasRows) :
    ∀ p ∈ group_aliases rows, p.2 ≠ [] := by
  have key : ∀ (rows : AliasRows) (acc : List (String × List String)),
      (∀ p ∈ acc, p.2 ≠ []) →
      ∀ p ∈ rows.foldl (fun acc r => add_alias_row acc r.1 r.2) acc, p.2 ≠ [] := by
    intro rows
    induction rows with
    | nil => intro acc h; exact h
    | cons r rest ih =>
        intro acc h
        exact ih (add_alias_row acc r.1 r.2) (add_alias_row_snd_ne_nil acc r.1 r.2 h)
  exact key rows [] (by simp)

theorem get_aliases_eq_some (rows : AliasRows) (m : List (String × List String))
    (h : get_aliases rows = some m) : m = group_aliases rows := by
  unfold get_aliases at h
  split_ifs at h
  exact (Option.some.injEq _ _ ▸ h).symm

/-! ### Claim theorems: cluster adapter and lifecycle queries -/

/-- C10: `get_aliases` returns either `none` (exactly when the cluster
reports no alias membership rows) or a non-empty mapping in which every
alias maps to a non-empty list of member indexes; it never returns an empty
mapping or an alias with an empty index list. -/
theorem get_aliases_shape (rows : AliasRows) :
    (get_aliases rows = none ↔ rows = [])
  ∧ ∀ m, get_aliases rows = some m → m ≠ [] ∧ ∀ p ∈ m, p.2 ≠ [] := by
  constructor
  · unfold get_aliases
    split_ifs with h
    · simp only [List.isEmpty_iff] at h
      simp [(group_aliases_eq_nil_iff rows).mp h]
    · simp only [List.isEmpty_iff] at h
      constructor
      · intro hnone; exact absurd hnone (by simp)
      · intro hrows
        exact absurd ((group_aliases_eq_nil_iff rows).mpr hrows) h
  · intro m hm
    have hmg := get_aliases_eq_some rows m hm
    subst hmg
    constructor
    · intro hnil
      unfold get_aliases at hm
      split_ifs at hm with h
      exact absurd hnil (by simpa using h)
    · exact group_aliases_snd_ne_nil rows

/-- Witness for C10: a single-row cluster state. -/
theorem get_aliases_shape_witness :
    ([("a", ["i"])] : List (String × List String)) ≠ []
      ∧ ∀ p ∈ ([("a", ["i"])] : List (String × List String)), p.2 ≠ [] :=
  (get_aliases_shape [("a", "i")]).2 [("a", ["i"])] rfl

/-- C3 (code bug): `get_primary_index_for_source` evaluated at a state in
which an alias holds a same-source index but the primary alias does not:
`aliases.get(PRIMARY_ALIAS, [])[0]` raises `IndexError` instead of
returning the documented `None`. -/
theorem get_primary_index_crash :
    get_primary_index_for_source [("timdex", "test-2022-10-01t00-00-00")] "test" =
      .error TimError.indexError := rfl

/-- C9 (code bug): `get_or_create_index_from_source` with `new = False`,
evaluated at the same anomalous-free but primary-less state as C3: the
primary lookup raises `IndexError`, so no index is returned or created. -/
theorem get_or_create_index_crash :
    get_or_create_index_from_source
        ⟨["test-2022-10-01t00-00-00"], [("timdex", "test-2022-10-01t00-00-00")]⟩
        "test" false "2026-10-12t00-00-00" =
      .error TimError.indexError := rfl

/-- C8: `get_all_aliased_indexes_for_source` returns the `none` sentinel
(not an error) on a cluster with zero aliases; and whenever an alias holds
more than one index whose name prefix matches the source, the offending
alias and its full index list are logged and the same full multi-index
entry is returned unmodified. -/
theorem aliased_indexes_for_source_properties :
    (∀ source : String, get_all_aliased_indexes_for_source [] source = none)
  ∧ (∀ (rows : AliasRows) (source a : String) (idxs : List String),
      (a, idxs) ∈ (get_aliases rows).getD [] →
      1 < (idxs.filter (fun i => get_source_from_index i = source)).length →
      (a, idxs.filter (fun i => get_source_from_index i = source)) ∈
          source_index_anomalies rows source
        ∧ get_all_aliased_indexes_for_source rows source ≠ none
        ∧ (a, idxs.filter (fun i => get_source_from_index i = source)) ∈
            (get_all_aliased_indexes_for_source rows source).getD []) := by
  constructor
  · intro source; rfl
  · intro rows source a idxs hmem hlen
    cases hga : get_aliases rows with
    | none => rw [hga] at hmem; simp at hmem
    | some aliases =>
        rw [hga] at hmem
        simp only [Option.getD_some] at hmem
        have hres : (a, idxs.filter (fun i => get_source_from_index i = source)) ∈
            aliases.map (fun p =>
              (p.1, p.2.filter (fun i => get_source_from_index i = source))) :=
          List.mem_map.mpr ⟨(a, idxs), hmem, rfl⟩
        have hne : idxs.filter (fun i => get_source_from_index i = source) ≠ [] := by
          intro hnil
          rw [hnil] at hlen
          simp at hlen
        have hf : (a, idxs.filter (fun i => get_source_from_index i = source)) ∈
            (aliases.map (fun p =>
              (p.1, p.2.filter (fun i => get_source_from_index i = source)))).filter
              (fun p => !p.2.isEmpty) :=
          List.mem_filter.mpr ⟨hres, by simpa using hne⟩
        have hfilterne : ((aliases.map (fun p =>
            (p.1, p.2.filter (fun i => get_source_from_index i = source)))).filter
              (fun p => !p.2.isEmpty)) ≠ [] := List.ne_nil_of_mem hf
        have hsome : get_all_aliased_indexes_for_source rows source =
            some ((aliases.map (fun p =>
              (p.1, p.2.filter (fun i => get_source_from_index i = source)))).filter
              (fun p => !p.2.isEmpty)) := by
          unfold get_all_aliased_indexes_for_source
          rw [hga]
          exact if_neg (fun hc => hfilterne (List.isEmpty_iff.mp hc))
        refine ⟨?_, ?_, ?_⟩
        · unfold source_index_anomalies
          rw [hga]
          exact List.mem_filter.mpr ⟨hres, by simpa using hlen⟩
        · rw [hsome]; simp
        · rw [hsome]; simpa using hf

/-! ### Helper lemmas about the promotion protocol -/

/-- Pair membership in an alias grouping: index `i` is listed under alias
`a`. -/
def PairMem (m : List (String × List String)) (a i : String) : Prop :=
  ∃ l, (a, l) ∈ m ∧ i ∈ l

theorem pairMem_nil (a i : String) : ¬ PairMem [] a i := by
  rintro ⟨l, hl, -⟩
  simp at hl

theorem pairMem_cons (k : String) (v : List String)
    (m : List (String × List String)) (a i : String) :
    PairMem ((k, v) :: m) a i ↔ ((a = k ∧ i ∈ v) ∨ PairMem m a i) := by
  constructor
  · rintro ⟨l, hl, hi⟩
    rcases List.mem_cons.mp hl with h1 | h1
    · obtain ⟨ha, hv⟩ := Prod.mk.injEq .. ▸ h1
      exact Or.inl ⟨ha, hv ▸ hi⟩
    · exact Or.inr ⟨l, h1, hi⟩
  · rintro (⟨ha, hi⟩ | ⟨l, hl, hi⟩)
    · exact ⟨v, by simp [ha], hi⟩
    · exact ⟨l, List.mem_cons_of_mem _ hl, hi⟩

theorem pairMem_add_alias_row (acc : List (String × List String))
    (a0 i0 a i : String) :
    PairMem (add_alias_row acc a0 i0) a i ↔
      (PairMem acc a i ∨ (a = a0 ∧ i = i0)) := by
  induction acc with
  | nil =>
      unfold add_alias_row
      rw [pairMem_cons]
      simp [pairMem_nil]
  | cons q rest ih =>
      obtain ⟨k, v⟩ := q
      unfold add_alias_row
      split_ifs with hk
      · subst hk
        rw [pairMem_cons, pairMem_cons]
        simp only [List.mem_append, List.mem_singleton]
        tauto
      · rw [pairMem_cons, pairMem_cons, ih]
        tauto

theorem pairMem_group_aliases (rows : AliasRows) (a i : String) :
    PairMem (group_aliases rows) a i ↔ (a, i) ∈ rows := by
  have key : ∀ (rows : AliasRows) (acc : List (String × List String)),
      PairMem (rows.foldl (fun acc r => add_alias_row acc r.1 r.2) acc) a i ↔
        (PairMem acc a i ∨ (a, i) ∈ rows) := by
    intro rows
    induction rows with
    | nil => intro acc; simp
    | cons r rest ih =>
        intro acc
        obtain ⟨a0, i0⟩ := r
        rw [List.foldl_cons]
        rw [ih (add_alias_row acc a0 i0)]
        rw [pairMem_add_alias_row]
        simp only [List.mem_cons, Prod.mk.injEq]
        tauto
  rw [group_aliases, key rows []]
  simp [pairMem_nil]

theorem getD_if_isEmpty {α : Type} (F : List α) :
    (if F.isEmpty then (none : Option (List α)) else some F).getD [] = F := by
  split_ifs with h
  · simp [List.isEmpty_iff.mp h]
  · simp

theorem source_mapping_eq (rows : AliasRows) (source : String)
    (aliases : List (String × List String)) (hga : get_aliases rows = some aliases) :
    (get_all_aliased_indexes_for_source rows source).getD [] =
      (aliases.map (fun p =>
        (p.1, p.2.filter (fun i => get_source_from_index i = source)))).filter
        (fun p => !p.2.isEmpty) := by
  unfold get_all_aliased_indexes_for_source
  rw [hga]
  exact getD_if_isEmpty _

theorem get_aliases_none_nil (rows : AliasRows) (hga : get_aliases rows = none) :
    rows = [] := by
  unfold get_aliases at hga
  split_ifs at hga with h
  exact (group_aliases_eq_nil_iff rows).mp (List.isEmpty_iff.mp h)

theorem pairMem_filtered_map (aliases : List (String × List String))
    (source a i : String) :
    PairMem ((aliases.map (fun p =>
        (p.1, p.2.filter (fun j => get_source_from_index j = source)))).filter
        (fun p => !p.2.isEmpty)) a i ↔
      (PairMem aliases a i ∧ get_source_from_index i = source) := by
  constructor
  · rintro ⟨l, hl, hi⟩
    obtain ⟨hl1, -⟩ := List.mem_filter.mp hl
    obtain ⟨⟨a1, l1⟩, hmem, heq⟩ := List.mem_map.mp hl1
    obtain ⟨ha, hleq⟩ := Prod.mk.injEq .. ▸ heq
    subst ha
    rw [← hleq] at hi
    obtain ⟨hil1, hsrc⟩ := List.mem_filter.mp hi
    exact ⟨⟨l1, hmem, hil1⟩, by simpa using hsrc⟩
  · rintro ⟨⟨l, hl, hi⟩, hsrc⟩
    refine ⟨l.filter (fun j => get_source_from_index j = source), ?_, ?_⟩
    · refine List.mem_filter.mpr ⟨List.mem_map.mpr ⟨(a, l), hl, rfl⟩, ?_⟩
      have hmem : i ∈ l.filter (fun j => get_source_from_index j = source) :=
        List.mem_filter.mpr ⟨hi, by simpa using hsrc⟩
      simpa [List.isEmpty_iff] using List.ne_nil_of_mem hmem
    · exact List.mem_filter.mpr ⟨hi, by simpa using hsrc⟩

theorem pairMem_source_mapping (rows : AliasRows) (source a i : String) :
    PairMem ((get_all_aliased_indexes_for_source rows source).getD []) a i ↔
      ((a, i) ∈ rows ∧ get_source_from_index i = source) := by
  cases hga : get_aliases rows with
  | none =>
      have hrows := get_aliases_none_nil rows hga
      subst hrows
      simp only [show (get_all_aliased_indexes_for_source ([] : AliasRows) source).getD []
          = ([] : List (String × List String)) from rfl]
      simp [pairMem_nil]
  | some aliases =>
      rw [source_mapping_eq rows source aliases hga, pairMem_filtered_map]
      rw [get_aliases_eq_some rows aliases hga]
      rw [pairMem_group_aliases]

theorem source_mapping_entry_ne_nil (rows : AliasRows) (source a : String)
    (l : List String)
    (h : (a, l) ∈ (get_all_aliased_indexes_for_source rows source).getD []) :
    l ≠ [] := by
  cases hga : get_aliases rows with
  | none =>
      have hrows := get_aliases_none_nil rows hga
      subst hrows
      simp only [show (get_all_aliased_indexes_for_source ([] : AliasRows) source).getD []
          = ([] : List (String × List String)) from rfl] at h
      simp at h
  | some aliases =>
      rw [source_mapping_eq rows source aliases hga] at h
      have hcond := (List.mem_filter.mp h).2
      intro hnil
      rw [hnil] at hcond
      simp at hcond

theorem mem_keys_source_mapping (rows : AliasRows) (source a : String) :
    a ∈ ((get_all_aliased_indexes_for_source rows source).getD []).map Prod.fst ↔
      ∃ i, (a, i) ∈ rows ∧ get_source_from_index i = source := by
  constructor
  · intro hk
    obtain ⟨⟨a1, l⟩, hmem, ha⟩ := List.mem_map.mp hk
    cases ha
    have hlne := source_mapping_entry_ne_nil rows source a1 l hmem
    obtain ⟨i, hi⟩ := List.exists_mem_of_ne_nil l hlne
    exact ⟨i, (pairMem_source_mapping rows source a1 i).mp ⟨l, hmem, hi⟩⟩
  · rintro ⟨i, hmem, hsrc⟩
    obtain ⟨l, hl, -⟩ := (pairMem_source_mapping rows source a i).mpr ⟨hmem, hsrc⟩
    exact List.mem_map.mpr ⟨(a, l), hl, rfl⟩

theorem mem_target_aliases (rows : AliasRows) (index : String)
    (extras : Option (List String)) (a : String) :
    a ∈ promote_target_aliases rows index extras ↔
      (a = PRIMARY_ALIAS
        ∨ (∃ i, (a, i) ∈ rows ∧
            get_source_from_index i = get_source_from_index index)
        ∨ a ∈ extras.getD []) := by
  unfold promote_target_aliases
  rw [List.mem_dedup]
  simp only [List.mem_append, List.mem_singleton]
  rw [mem_keys_source_mapping]
  exact or_assoc

theorem add_mem_promote_adds (rows : AliasRows) (index : String)
    (extras : Option (List String)) (i a : String) :
    AliasAction.add i a ∈ promote_adds rows index extras ↔
      (i = index ∧ a ∈ promote_target_aliases rows index extras) := by
  unfold promote_adds
  constructor
  · intro h
    obtain ⟨a1, hmem, heq⟩ := List.mem_map.mp h
    cases heq
    exact ⟨rfl, hmem⟩
  · rintro ⟨rfl, hmem⟩
    exact List.mem_map.mpr ⟨a, hmem, rfl⟩

theorem remove_not_mem_promote_adds (rows : AliasRows) (index : String)
    (extras : Option (List String)) (i a : String) :
    AliasAction.remove i a ∉ promote_adds rows index extras := by
  intro h
  obtain ⟨a1, -, heq⟩ := List.mem_map.mp h
  exact AliasAction.noConfusion heq

theorem remove_mem_promote_removes (rows : AliasRows) (index i a : String) :
    AliasAction.remove i a ∈ promote_removes rows index ↔
      ((a, i) ∈ rows ∧ get_source_from_index i = get_source_from_index index
        ∧ i ≠ index) := by
  unfold promote_removes
  rw [List.mem_flatMap]
  constructor
  · rintro ⟨⟨a1, l⟩, hmem, hin⟩
    obtain ⟨i1, hi1, heq⟩ := List.mem_map.mp hin
    injection heq with h1 h2
    obtain ⟨hil, hine⟩ := List.mem_filter.mp hi1
    have hsrc := (pairMem_source_mapping rows (get_source_from_index index) a1 i1).mp
      ⟨l, hmem, hil⟩
    rw [← h1, ← h2]
    exact ⟨hsrc.1, hsrc.2, by simpa using hine⟩
  · rintro ⟨hmem, hsrc, hne⟩
    obtain ⟨l, hl, hil⟩ :=
      (pairMem_source_mapping rows (get_source_from_index index) a i).mpr ⟨hmem, hsrc⟩
    exact ⟨(a, l), hl,
      List.mem_map.mpr ⟨i, List.mem_filter.mpr ⟨hil, by simpa using hne⟩, rfl⟩⟩

theorem add_not_mem_promote_removes (rows : AliasRows) (index i a : String) :
    AliasAction.add i a ∉ promote_removes rows index := by
  intro h
  rw [promote_removes, List.mem_flatMap] at h
  obtain ⟨p, -, hin⟩ := h
  obtain ⟨i1, -, heq⟩ := List.mem_map.mp hin
  exact AliasAction.noConfusion heq

theorem promote_removes_are_removes (rows : AliasRows) (index : String) :
    ∀ act ∈ promote_removes rows index, ∃ i a, act = AliasAction.remove i a := by
  intro act hact
  rw [promote_removes, List.mem_flatMap] at hact
  obtain ⟨p, -, hin⟩ := hact
  obtain ⟨i1, -, heq⟩ := List.mem_map.mp hin
  exact ⟨i1, p.1, heq.symm⟩

theorem mem_apply_alias_action_add (rows : AliasRows) (i a : String)
    (p : String × String) :
    p ∈ apply_alias_action rows (AliasAction.add i a) ↔ (p ∈ rows ∨ p = (a, i)) := by
  show p ∈ (if (a, i) ∈ rows then rows else rows ++ [(a, i)]) ↔ (p ∈ rows ∨ p = (a, i))
  split_ifs with h
  · constructor
    · exact Or.inl
    · rintro (hp | rfl)
      · exact hp
      · exact h
  · simp

theorem mem_apply_alias_action_remove (rows : AliasRows) (i a : String)
    (p : String × String) :
    p ∈ apply_alias_action rows (AliasAction.remove i a) ↔
      (p ∈ rows ∧ p ≠ (a, i)) := by
  show p ∈ rows.filter (fun p => p ≠ (a, i)) ↔ (p ∈ rows ∧ p ≠ (a, i))
  rw [List.mem_filter]
  simp

theorem mem_apply_adds (index : String) (al : List String) :
    ∀ (rows : AliasRows) (p : String × String),
      p ∈ apply_alias_actions rows (al.map (fun a => AliasAction.add index a)) ↔
        (p ∈ rows ∨ ∃ a ∈ al, p = (a, index)) := by
  induction al with
  | nil => intro rows p; simp [apply_alias_actions]
  | cons a rest ih =>
      intro rows p
      rw [List.map_cons]
      rw [show apply_alias_actions rows
          (AliasAction.add index a :: rest.map (fun a => AliasAction.add index a)) =
          apply_alias_actions (apply_alias_action rows (AliasAction.add index a))
            (rest.map (fun a => AliasAction.add index a)) from rfl]
      rw [ih, mem_apply_alias_action_add]
      simp only [List.mem_cons]
      constructor
      · rintro ((hp | rfl) | ⟨b, hb, rfl⟩)
        · exact Or.inl hp
        · exact Or.inr ⟨a, Or.inl rfl, rfl⟩
        · exact Or.inr ⟨b, Or.inr hb, rfl⟩
      · rintro (hp | ⟨b, (rfl | hb), rfl⟩)
        · exact Or.inl (Or.inl hp)
        · exact Or.inl (Or.inr rfl)
        · exact Or.inr ⟨b, hb, rfl⟩

theorem mem_apply_removes : ∀ (removes : List AliasAction),
    (∀ act ∈ removes, ∃ i a, act = AliasAction.remove i a) →
    ∀ (rows : AliasRows) (p : String × String),
      p ∈ apply_alias_actions rows removes ↔
        (p ∈ rows ∧ ∀ i a, AliasAction.remove i a ∈ removes → p ≠ (a, i)) := by
  intro removes
  induction removes with
  | nil => intro _ rows p; simp [apply_alias_actions]
  | cons act rest ih =>
      intro hall rows p
      obtain ⟨i0, a0, rfl⟩ := hall _ (List.mem_cons_self _ _)
      rw [show apply_alias_actions rows (AliasAction.remove i0 a0 :: rest) =
          apply_alias_actions (apply_alias_action rows (AliasAction.remove i0 a0))
            rest from rfl]
      rw [ih (fun act h => hall act (List.mem_cons_of_mem _ h)),
        mem_apply_alias_action_remove]
      constructor
      · rintro ⟨⟨hp, hne⟩, hrest⟩
        refine ⟨hp, ?_⟩
        intro i a hmem
        rcases List.mem_cons.mp hmem with h1 | h1
        · injection h1 with h2 h3
          subst h2
          subst h3
          exact hne
        · exact hrest i a h1
      · rintro ⟨hp, hcond⟩
        exact ⟨⟨hp, hcond i0 a0 (List.mem_cons_self _ _)⟩,
          fun i a h1 => hcond i a (List.mem_cons_of_mem _ h1)⟩

theorem mem_promote_apply (rows : AliasRows) (index : String)
    (extras : Option (List String)) (p : String × String) :
    p ∈ promote_apply rows index extras ↔
      ((p ∈ rows ∧
          (get_source_from_index p.2 = get_source_from_index index → p.2 = index))
        ∨ (p.2 = index ∧ p.1 ∈ promote_target_aliases rows index extras)) := by
  unfold promote_apply promote_request
  rw [show apply_alias_actions rows
      (promote_adds rows index extras ++ promote_removes rows index) =
      apply_alias_actions (apply_alias_actions rows (promote_adds rows index extras))
        (promote_removes rows index) from List.foldl_append _ _ _ _]
  rw [mem_apply_removes (promote_removes rows index)
    (promote_removes_are_removes rows index)]
  rw [show promote_adds rows index extras =
      (promote_target_aliases rows index extras).map
        (fun a => AliasAction.add index a) from rfl]
  rw [mem_apply_adds]
  constructor
  · rintro ⟨hadd, hrem⟩
    rcases hadd with hp | ⟨a, ha, rfl⟩
    · left
      refine ⟨hp, ?_⟩
      intro hsrc
      by_contra hne
      refine hrem p.2 p.1 ?_ Prod.mk.eta.symm
      rw [remove_mem_promote_removes]
      exact ⟨by rw [Prod.mk.eta]; exact hp, hsrc, hne⟩
    · right
      exact ⟨rfl, ha⟩
  · rintro (⟨hp, himp⟩ | ⟨h2, h1⟩)
    · refine ⟨Or.inl hp, ?_⟩
      intro i a hmem heq
      rw [remove_mem_promote_removes] at hmem
      rw [heq] at himp
      exact hmem.2.2 (himp hmem.2.1)
    · refine ⟨Or.inr ⟨p.1, h1, ?_⟩, ?_⟩
      · rw [← h2, Prod.mk.eta]
      · intro i a hmem heq
        rw [remove_mem_promote_removes] at hmem
        rw [heq] at h2
        exact hmem.2.2 h2

theorem target_aliases_idempotent (rows : AliasRows) (index : String)
    (extras : Option (List String)) (a : String) :
    a ∈ promote_target_aliases (promote_apply rows index extras) index extras ↔
      a ∈ promote_target_aliases rows index extras := by
  rw [mem_target_aliases, mem_target_aliases]
  constructor
  · rintro (h | ⟨i, hmem, hsrc⟩ | h)
    · exact Or.inl h
    · rcases (mem_promote_apply rows index extras (a, i)).mp hmem with
        ⟨hmem2, -⟩ | ⟨-, hta⟩
      · exact Or.inr (Or.inl ⟨i, hmem2, hsrc⟩)
      · exact (mem_target_aliases rows index extras a).mp hta
    · exact Or.inr (Or.inr h)
  · intro h
    rcases h with h | ⟨i, hmem, hsrc⟩ | h
    · exact Or.inl h
    · refine Or.inr (Or.inl ⟨index, ?_, rfl⟩)
      refine (mem_promote_apply rows index extras (a, index)).mpr (Or.inr ⟨rfl, ?_⟩)
      exact (mem_target_aliases rows index extras a).mpr (Or.inr (Or.inl ⟨i, hmem, hsrc⟩))
    · exact Or.inr (Or.inr h)

/-! ### Claim theorems: the promotion protocol -/

/-- C2: the single combined `update_aliases` request built by
`promote_index` adds the promoted index to exactly the aliases in
{primary alias} together with {aliases currently holding a same-source
index} and {the requested extra aliases}; its remove actions remove exactly
every other same-source index from each alias it currently occupies; no
remove action targets the promoted index; and every action in the request
is such an add or such a remove. -/
theorem promote_request_characterization (rows : AliasRows) (index : String)
    (extras : Option (List String)) :
    (∀ a, AliasAction.add index a ∈ promote_request rows index extras ↔
        (a = PRIMARY_ALIAS
          ∨ (∃ i, (a, i) ∈ rows ∧
              get_source_from_index i = get_source_from_index index)
          ∨ a ∈ extras.getD []))
  ∧ (∀ i a, AliasAction.remove i a ∈ promote_request rows index extras ↔
        ((a, i) ∈ rows ∧ get_source_from_index i = get_source_from_index index
          ∧ i ≠ index))
  ∧ (∀ a, AliasAction.remove index a ∉ promote_request rows index extras)
  ∧ (∀ act ∈ promote_request rows index extras,
        (∃ a, act = AliasAction.add index a)
          ∨ (∃ i a, act = AliasAction.remove i a ∧ i ≠ index)) := by
  have hremove : ∀ i a, AliasAction.remove i a ∈ promote_request rows index extras ↔
      ((a, i) ∈ rows ∧ get_source_from_index i = get_source_from_index index
        ∧ i ≠ index) := by
    intro i a
    unfold promote_request
    rw [List.mem_append]
    constructor
    · rintro (h | h)
      · exact absurd h (remove_not_mem_promote_adds rows index extras i a)
      · exact (remove_mem_promote_removes rows index i a).mp h
    · intro h
      exact Or.inr ((remove_mem_promote_removes rows index i a).mpr h)
  refine ⟨?_, hremove, ?_, ?_⟩
  · intro a
    unfold promote_request
    rw [List.mem_append]
    constructor
    · rintro (h | h)
      · exact (mem_target_aliases rows index extras a).mp
          ((add_mem_promote_adds rows index extras index a).mp h).2
      · exact absurd h (add_not_mem_promote_removes rows index index a)
    · intro h
      exact Or.inl ((add_mem_promote_adds rows index extras index a).mpr
        ⟨rfl, (mem_target_aliases rows index extras a).mpr h⟩)
  · intro a h
    exact ((hremove index a).mp h).2.2 rfl
  · intro act hact
    rcases List.mem_append.mp hact with h | h
    · obtain ⟨a1, -, heq⟩ := List.mem_map.mp h
      exact Or.inl ⟨a1, heq.symm⟩
    · obtain ⟨i1, a1, rfl⟩ := promote_removes_are_removes rows index act h
      refine Or.inr ⟨i1, a1, rfl, ?_⟩
      exact ((remove_mem_promote_removes rows index i1 a1).mp h).2.2

/-- Witness for C2: promoting `test-1` over a state in which the primary
alias holds the older same-source index `test-0` produces a request that
removes `test-0` from that alias. -/
theorem promote_request_characterization_witness :
    AliasAction.remove "test-0" "all-current" ∈
      promote_request [("all-current", "test-0")] "test-1" none :=
  ((promote_request_characterization [("all-current", "test-0")] "test-1"
      none).2.1 "test-0" "all-current").mpr ⟨by decide, by decide, by decide⟩

/-- C7: promotion is idempotent in its end state — promoting the same index
with the same extra aliases twice in a row leaves exactly the same alias
membership rows (as a set) as promoting it once. -/
theorem promote_end_state_idempotent (rows : AliasRows) (index : String)
    (extras : Option (List String)) (p : String × String) :
    (p ∈ promote_apply (promote_apply rows index extras) index extras ↔
      p ∈ promote_apply rows index extras) := by
  constructor
  · intro h
    rcases (mem_promote_apply _ index extras p).mp h with ⟨hp, -⟩ | ⟨h2, h1⟩
    · exact hp
    · rw [target_aliases_idempotent] at h1
      exact (mem_promote_apply rows index extras p).mpr (Or.inr ⟨h2, h1⟩)
  · intro hp
    rcases (mem_promote_apply rows index extras p).mp hp with ⟨-, himp⟩ | ⟨h2, h1⟩
    · exact (mem_promote_apply _ index extras p).mpr (Or.inl ⟨hp, himp⟩)
    · exact (mem_promote_apply _ index extras p).mpr
        (Or.inr ⟨h2, (target_aliases_idempotent rows index extras p.1).mpr h1⟩)

/-- Witness for C8: an alias holding two indexes for the same source. -/
theorem aliased_indexes_for_source_properties_witness :
    ("all-current", ["test-1", "test-2"]) ∈
      (get_all_aliased_indexes_for_source
        [("all-current", "test-1"), ("all-current", "test-2")] "test").getD [] :=
  (aliased_indexes_for_source_properties.2
    [("all-current", "test-1"), ("all-current", "test-2")] "test" "all-current"
    ["test-1", "test-2"] (by decide) (by decide)).2.2

end Tim
